import Mathlib

/-!
Verification development for the `shellcli` shell library (package `shell`,
file `shell/shellcli.go`).  The Go code is shallowly embedded: maps become
association lists with overwrite-on-insert, errors become `Except String`,
handlers become pure functions, and the side effects relevant to the claims
(registry lookups, run-handler invocations, positional-overflow warnings)
are recorded in an explicit event trace.  The third-party tokenizer
(`github.com/go-andiamo/splitter`) is not part of the repository; the shell
structure therefore carries the two splitters as abstract function fields,
and a concrete model of them, written from the specification, is provided
for evaluating concrete scenarios.
-/

namespace Shellcli

/-- Model of Go `strings.ToLower` on a character: basic latin letters are
lowered, every other character is kept (the claims only exercise ASCII
names; Go full-Unicode lowering also never produces a basic latin capital). -/
def charToLowerGo (c : Char) : Char :=
  if h : 65 ≤ c.toNat ∧ c.toNat ≤ 90 then
    Char.ofNatAux (c.toNat + 32) (Or.inl (by omega))
  else c

/-- Model of Go `strings.ToLower`. -/
def toLowerGo (s : String) : String :=
  String.mk (s.data.map charToLowerGo)

/-- Model of Go `strings.HasPrefix s pre2`. -/
def hasPrefixGo (s pre2 : String) : Bool :=
  List.isPrefixOf pre2.data s.data

/-- Model of Go `strings.TrimSpace` (ASCII whitespace). -/
def trimGo (s : String) : String :=
  String.mk (((s.data.dropWhile Char.isWhitespace).reverse.dropWhile Char.isWhitespace).reverse)

/-- Model of Go `strings.Split` on a one-character separator: all segments
are kept, including empty ones. -/
def goSplitChar (sep : Char) : List Char → List Char → List String
  | [], cur => [String.mk cur.reverse]
  | c :: rest, cur =>
    if c = sep then String.mk cur.reverse :: goSplitChar sep rest []
    else goSplitChar sep rest (c :: cur)

/-- Model of Go `strings.Contains s ";"`-style containment of a single
character. -/
def containsCharGo (s : String) (c : Char) : Bool :=
  s.data.contains c

/-- Go map assignment `m[k] = v`: any previous binding of `k` is replaced. -/
def mapSet {α : Type} (m : List (String × α)) (k : String) (v : α) : List (String × α) :=
  (m.filter (fun p => p.1 != k)) ++ [(k, v)]

/-- `Command` from `shellcli.go`: name, description, ordered argument specs
`(name, description, default)`, a run handler and an optional completion
handler.  Handlers receive the session in Go; they are modelled as closed
functions since no claim depends on a handler reading the session. -/
structure Command where
  Name : String
  Description : String
  Args : List (String × String × String)
  Run : List (String × String) → Option String
  Completer : Option (String → List (String × String) → Except String (List String))

/-- `ShellCli` from `shellcli.go`, restricted to the fields the parsing,
dispatch and completion engine reads.  The two third-party splitters are
abstract function fields. -/
structure ShellCli where
  ProjectName : String
  Commands : List (String × Command)
  Splitter : String → Except String (List String)
  ArgSplitter : String → Except String (List String)
  CaseInsensitive : Bool
  DebugCompletions : Bool

/-- Observable events of an execution: a registry lookup, a run-handler
invocation (with the argument map it received), and an extra-positional
warning printed by `CreateArgMapFromArgs`.  `seg` marks `RunString` being
invoked on one `;`-segment by `ExecuteCommands`. -/
inductive Ev where
  | seg (s : String)
  | lookup (name : String)
  | run (argMap : List (String × String))
  | warn (msg : String)
deriving DecidableEq

/-- `ParseOutCommand`: empty token list resolves to no command and no error;
otherwise the first token (lowercased when `CaseInsensitive`) is looked up,
and a missing name is the error `unknown command: <original first token>`. -/
def ParseOutCommand (a : ShellCli) (cmd : List String) : Except String (Option Command) :=
  match cmd with
  | [] => .ok none
  | c0 :: _ =>
    match List.lookup (if a.CaseInsensitive then toLowerGo c0 else c0) a.Commands with
    | some cmdData => .ok (some cmdData)
    | none => .error ("unknown command: " ++ c0)

/-- Loop of `CreateArgMapFromArgs`: `i` is the raw index of the current
token, `m` the argument map built so far, `w` the warnings printed so far. -/
def createArgLoop (a : ShellCli) (cmdData : Command) :
    Nat → List String → List (String × String) → List String →
    Except String (List (String × String) × List String)
  | _, [], m, w => .ok (m, w)
  | i, arg :: rest, m, w =>
    match a.ArgSplitter arg with
    | .error e => .error ("error splitting argument: " ++ e)
    | .ok [v] =>
      if cmdData.Args.length ≤ i then
        createArgLoop a cmdData (i + 1) rest m (w ++ [v])
      else
        createArgLoop a cmdData (i + 1) rest (mapSet m (cmdData.Args.getD i ("", "", "")).1 v) w
    | .ok [k, v] => createArgLoop a cmdData (i + 1) rest (mapSet m k v) w
    | .ok _ => .error ("invalid argument: " ++ arg)

/-- `CreateArgMapFromArgs`: builds the name-to-value map from the
post-command tokens, also returning the list of extra-argument warnings. -/
def CreateArgMapFromArgs (a : ShellCli) (cmdData : Command) (args : List String) :
    Except String (List (String × String) × List String) :=
  createArgLoop a cmdData 0 args [] []

/-- `Exec`: resolve the command, build the argument map, invoke the run
handler; the trace records the registry lookup, the warnings and the
handler invocation. -/
def Exec (a : ShellCli) (cmd : List String) : Except String Unit × List Ev :=
  match cmd with
  | [] => (.ok (), [])
  | c0 :: rest =>
    let lk := [Ev.lookup (if a.CaseInsensitive then toLowerGo c0 else c0)]
    match ParseOutCommand a (c0 :: rest) with
    | .error e => (.error e, lk)
    | .ok none => (.ok (), lk)
    | .ok (some cmdData) =>
      match CreateArgMapFromArgs a cmdData rest with
      | .error e => (.error e, lk)
      | .ok (argMap, warns) =>
        match cmdData.Run argMap with
        | some e => (.error e, lk ++ warns.map Ev.warn ++ [Ev.run argMap])
        | none => (.ok (), lk ++ warns.map Ev.warn ++ [Ev.run argMap])

/-- `RunString`: trim, tokenize, no-op on an empty token list or empty
first token, short-circuit on the exit tokens, otherwise `Exec`.  The
boolean is the should-exit signal. -/
def RunString (a : ShellCli) (command : String) : (Bool × Option String) × List Ev :=
  match a.Splitter (trimGo command) with
  | .error e => ((false, some ("error splitting command: " ++ e)), [])
  | .ok [] => ((false, none), [])
  | .ok (t0 :: rest) =>
    if t0 = "" then ((false, none), [])
    else if t0 = "exit" || t0 = "quit" then ((true, none), [])
    else
      match Exec a (t0 :: rest) with
      | (.error e, t) => ((false, some e), t)
      | (.ok _, t) => ((false, none), t)

/-- `AddCommand`: Go map assignment into the registry. -/
def AddCommand (a : ShellCli) (name : String) (cmd : Command) : ShellCli :=
  { a with Commands := mapSet a.Commands name cmd }

/-- Loop of `ExecuteCommands` over the `;`-segments: empty segments are
skipped, and the first segment whose `RunString` returns an error or the
exit signal ends the run with that result. -/
def ExecuteCommandsLoop (a : ShellCli) : List String → (Bool × Option String) × List Ev
  | [] => ((false, none), [])
  | cseg :: rest =>
    if cseg = "" then ExecuteCommandsLoop a rest
    else
      match RunString a cseg with
      | (r, t) =>
        if r.2.isSome || r.1 then (r, Ev.seg cseg :: t)
        else
          let q := ExecuteCommandsLoop a rest
          (q.1, (Ev.seg cseg :: t) ++ q.2)

/-- `ExecuteCommands`: split the raw line on literal `;` and run the
segments in order. -/
def ExecuteCommands (a : ShellCli) (cmd : String) : (Bool × Option String) × List Ev :=
  ExecuteCommandsLoop a (goSplitChar ';' cmd.data [])

/-- `CompletionHandler`, returning the completions and the debug output
lines (printed only when `DebugCompletions` is set). -/
def CompletionHandler (a : ShellCli) (line : String) : List String × List String :=
  if (line.data.filter (fun c => c != ' ')).length = 0 then
    ((a.Commands.map Prod.fst).filter (fun name => hasPrefixGo name (toLowerGo line)), [])
  else if containsCharGo line ';' then ([], [])
  else
    match a.Splitter (trimGo line) with
    | .error e => ([], if a.DebugCompletions then [e] else [])
    | .ok [] => ([], [])
    | .ok (t0 :: rest) =>
      if t0 = "" then ([], [])
      else if t0 = "exit" || t0 = "quit" then ([], [])
      else
        match ParseOutCommand a (t0 :: rest) with
        | .error e =>
          ((a.Commands.map Prod.fst).filter (fun name => hasPrefixGo name (toLowerGo line)),
           if a.DebugCompletions then ["error parsing command: " ++ e] else [])
        | .ok none => ([], [])
        | .ok (some cmdData) =>
          match cmdData.Completer with
          | some comp =>
            match CreateArgMapFromArgs a cmdData rest with
            | .error e => ([], if a.DebugCompletions then ["error creating arg map: " ++ e] else [])
            | .ok (argMap, _) =>
              match comp line argMap with
              | .error e => ([], if a.DebugCompletions then ["error running completer: " ++ e] else [])
              | .ok completions => (completions.map (fun comp2 => comp2 ++ " "), [])
          | none => ([], [])

/-- Loop of `UtilFindUntypedArgInArgStr` / `UtilFindLastArgInArgStr`: split
the input on spaces while a naive in-quotes flag (toggled by every single-
or double-quote character) is clear; empty pieces are never emitted.  The
current piece is accumulated in reverse. -/
def splitPreservingQuotesLoop : List Char → List Char → Bool → List String → List String
  | [], cur, _, acc =>
    if cur.length > 0 then acc ++ [String.mk cur.reverse] else acc
  | c :: rest, cur, inQuotes, acc =>
    let inQuotes2 := if c = Char.ofNat 39 || c = '"' then !inQuotes else inQuotes
    if c = ' ' && !inQuotes2 then
      if cur.length > 0 then
        splitPreservingQuotesLoop rest [] inQuotes2 (acc ++ [String.mk cur.reverse])
      else
        splitPreservingQuotesLoop rest cur inQuotes2 acc
    else
      splitPreservingQuotesLoop rest (c :: cur) inQuotes2 acc

/-- The space-splitting pass shared by the two `Util...ArgInArgStr`
functions. -/
def splitPreservingQuotes (args : String) : List String :=
  splitPreservingQuotesLoop args.data [] false []

/-- `UtilFindUntypedArgInArgStr`: the last piece without a `=` is the
untyped argument; a piece ending in `=` resets the candidate to empty. -/
def UtilFindUntypedArgInArgStr (args : String) : String :=
  (splitPreservingQuotes args).foldl
    (fun lastUntyped arg =>
      if !(containsCharGo arg '=') then arg
      else if arg.data.getLast? = some '=' then ""
      else lastUntyped)
    ""

/-- Modelled from the spec: core scan of the third-party
`go-andiamo/splitter` tokenizer (§4.1/§4.2), which is not part of this
repository.  Splits on `sep` at top level; `()`, `[]`, `{}` nest via a
stack of expected closers, single and double quotes open a quoted span in
which a backslash escapes the next character; enclosure characters are kept
in the token; unbalanced or mismatched enclosures are a parse error. -/
def splitChars (sep : Char) : List Char → List Char → List Char → Bool → List String →
    Except String (List String)
  | [], cur, stack, _, acc =>
    if stack.isEmpty then .ok (acc ++ [String.mk cur.reverse])
    else .error "unbalanced enclosure"
  | c :: rest, cur, stack, esc, acc =>
    match stack with
    | top :: stk =>
      if top = Char.ofNat 39 || top = '"' then
        if esc then splitChars sep rest (c :: cur) (top :: stk) false acc
        else if c = '\\' then splitChars sep rest (c :: cur) (top :: stk) true acc
        else if c = top then splitChars sep rest (c :: cur) stk false acc
        else splitChars sep rest (c :: cur) (top :: stk) false acc
      else
        if c = '(' then splitChars sep rest (c :: cur) (')' :: top :: stk) false acc
        else if c = '[' then splitChars sep rest (c :: cur) (']' :: top :: stk) false acc
        else if c = '\x7b' then splitChars sep rest (c :: cur) ('\x7d' :: top :: stk) false acc
        else if c = top then splitChars sep rest (c :: cur) stk false acc
        else if c = ')' || c = ']' || c = '\x7d' then .error "mismatched enclosure"
        else if c = Char.ofNat 39 || c = '"' then splitChars sep rest (c :: cur) (c :: top :: stk) false acc
        else splitChars sep rest (c :: cur) (top :: stk) false acc
    | [] =>
      if c = sep then splitChars sep rest [] [] false (acc ++ [String.mk cur.reverse])
      else if c = '(' then splitChars sep rest (c :: cur) [')'] false acc
      else if c = '[' then splitChars sep rest (c :: cur) [']'] false acc
      else if c = '\x7b' then splitChars sep rest (c :: cur) ['\x7d'] false acc
      else if c = ')' || c = ']' || c = '\x7d' then .error "mismatched enclosure"
      else if c = Char.ofNat 39 || c = '"' then splitChars sep rest (c :: cur) [c] false acc
      else splitChars sep rest (c :: cur) [] false acc

/-- Modelled from the spec: the `IgnoreEmptyFirst` / `IgnoreEmptyLast`
splitter options, discarding a leading and a trailing empty token. -/
def dropEmptyEnds (l : List String) : List String :=
  let l1 := match l with
    | "" :: t => t
    | _ => l
  match l1.getLast? with
  | some "" => l1.dropLast
  | _ => l1

/-- Modelled from the spec: backslash unescaping inside a quoted token. -/
def unescapeChars : List Char → List Char
  | [] => []
  | '\\' :: c :: rest => c :: unescapeChars rest
  | c :: rest => c :: unescapeChars rest

/-- Modelled from the spec: the `UnescapeQuotes` splitter option, stripping
one level of surrounding quotes from a token and unescaping backslash
sequences inside it. -/
def unescapeTok (s : String) : String :=
  match s.data with
  | c :: (c2 :: rest2) =>
    if (c = Char.ofNat 39 || c = '"') && (c2 :: rest2).getLast? = some c then
      String.mk (unescapeChars ((c2 :: rest2).dropLast))
    else s
  | _ => s

/-- Modelled from the spec: the shell tokenizer — split on spaces honoring
enclosures, trim each token, drop leading/trailing empty tokens. -/
def SplitterModel (line : String) : Except String (List String) :=
  (splitChars ' ' line.data [] [] false []).map
    (fun toks => dropEmptyEnds (toks.map trimGo))

/-- Modelled from the spec: the argument splitter — split on `=` honoring
enclosures, trim, unescape quotes, drop leading/trailing empty tokens. -/
def ArgSplitterModel (tok : String) : Except String (List String) :=
  (splitChars '=' tok.data [] [] false []).map
    (fun toks => dropEmptyEnds ((toks.map trimGo).map unescapeTok))

/-- A run handler that always succeeds (scenario commands for the claims
never rely on handler behavior). -/
def noRun : List (String × String) → Option String := fun _ => none

/-- Scenario command with declared arguments and no completer. -/
def mkCmd (name : String) (argNames : List String) : Command :=
  { Name := name, Description := "", Args := argNames.map (fun n => (n, "", "")),
    Run := noRun, Completer := none }

/-- Scenario shell: registry built with `AddCommand`, the spec-modelled
splitters, case-sensitive, non-debug. -/
def mkShell (cmds : List (String × Command)) : ShellCli :=
  cmds.foldl (fun a p => AddCommand a p.1 p.2)
    { ProjectName := "test", Commands := [], Splitter := SplitterModel,
      ArgSplitter := ArgSplitterModel, CaseInsensitive := false,
      DebugCompletions := false }

/-- Shell with the two commands `help` and `ping` registered. -/
def shellHP : ShellCli :=
  mkShell [("help", mkCmd "help" ["command"]), ("ping", mkCmd "ping" [])]

/-- Shell with one command `xcmd` declaring the arguments `x`, `y`. -/
def shellXY : ShellCli := mkShell [("xcmd", mkCmd "xcmd" ["x", "y"])]

/-- The command declaring arguments `x`, `y`. -/
def cmdXY : Command := mkCmd "xcmd" ["x", "y"]

/-- The command declaring only the argument `x`. -/
def cmdX : Command := mkCmd "xcmd" ["x"]

/-- A command declaring no arguments at all. -/
def cmdNone : Command := mkCmd "none" []

/-- Shell with the single command `Foo` (capital F) registered and the
case-insensitivity flag enabled. -/
def shellFoo : ShellCli := { mkShell [("Foo", cmdNone)] with CaseInsensitive := true }

/-- The documented test input of `UtilFindUntypedArgInArgStr`: a quoted
value containing `=` characters and a space. -/
def jsonArgStr : String :=
  "abc=def ghi=d ghi:json=" ++ String.mk [Char.ofNat 39] ++
    "\x7b\\\"ahshsh\\\":\\\"ahs=293d\\\"==w=1 fhfhf\x7d" ++ String.mk [Char.ofNat 39]

/-- An argument string whose single argument `a` has a quoted value that
contains a backslash-escaped quote followed by a space: `a="\" b"`. -/
def escQuoteArgStr : String := "a=\"\\\" b\""

/-!  ## Claim C2 — positional token beyond the declared arguments  -/

/-- C2: the claim states that for declared args `[x]` and tokens
`["x=1","2"]` the result is the map `x ↦ "2"`.  In fact the bare token
`"2"` sits at raw token index 1, which is beyond the single declared
argument, so it is dropped with a warning and `x` keeps the value `"1"`. -/
theorem C2_counterexample :
    (CreateArgMapFromArgs (mkShell []) cmdX ["x=1", "2"]).map
        (fun r => List.lookup "x" r.1) = .ok (some "1") ∧
      (CreateArgMapFromArgs (mkShell []) cmdX ["x=1", "2"]).map
        (fun r => List.lookup "x" r.1) ≠ .ok (some "2") := by
  refine ⟨rfl, ?_⟩
  have h1 : (CreateArgMapFromArgs (mkShell []) cmdX ["x=1", "2"]).map
      (fun r => List.lookup "x" r.1) = .ok (some "1") := rfl
  rw [h1]
  simp

/-- C2 (amended): for the single declared argument spec `[x]`,
`CreateArgMapFromArgs` on `["x=1","2"]` returns the map `x ↦ "1"` together
with the non-fatal warning about the extra argument `"2"`: the positional
token `"2"` is at raw token index 1, beyond the one declared argument, so
it is dropped and does not overwrite the earlier explicit `x=1`. -/
theorem C2_theorem :
    CreateArgMapFromArgs (mkShell []) cmdX ["x=1", "2"] = .ok ([("x", "1")], ["2"]) := by
  rfl

/-!  ## Claim C3 — completion on empty or whitespace-only lines  -/

/-- C3: the claim states that every whitespace-only line produces the full
command listing.  With `help` and `ping` registered, the one-space line
produces no completions at all (no registered name starts with a space). -/
theorem C3_counterexample :
    CompletionHandler shellHP " " = ([], []) ∧
      shellHP.Commands.map Prod.fst = ["help", "ping"] := by
  constructor
  · rfl
  · rfl

/-- C3 (amended): for every line whose characters are all spaces (the code
tests that deleting the spaces leaves length zero — so this covers the
empty line and space-only lines, but not other whitespace), the handler
returns exactly the registered command names having the lowercased line as
a literal prefix, with no debug output.  On the empty line this is every
registered name; on a space-only non-empty line no name qualifies in
practice, since command names do not start with a space. -/
theorem C3_theorem (a : ShellCli) (line : String)
    (h : (line.data.filter (fun c => c != ' ')).length = 0) :
    CompletionHandler a line =
      ((a.Commands.map Prod.fst).filter (fun name => hasPrefixGo name (toLowerGo line)), []) := by
  unfold CompletionHandler
  rw [if_pos h]

/-- C3 witness: on the empty line with `help` and `ping` registered, the
amended statement yields exactly the full listing. -/
theorem C3_witness :
    (("".data.filter (fun c => c != ' ')).length = 0) ∧
      CompletionHandler shellHP "" = (["help", "ping"], []) := by
  refine ⟨by decide, ?_⟩
  rw [C3_theorem shellHP "" (by decide)]
  rfl

/-!  ## Claim C6 — exit tokens short-circuit  -/

/-- C6: for every raw line whose first token after trimming and tokenizing
is exactly `exit` or `quit` (a literal comparison, performed before any
case folding), `RunString` returns `(true, nil)` — the exit signal — with
an empty event trace: no registry lookup and no run-handler invocation
happen, for every registry content. -/
theorem C6_theorem (a : ShellCli) (command : String) (t0 : String) (rest : List String)
    (h1 : a.Splitter (trimGo command) = .ok (t0 :: rest))
    (h2 : t0 = "exit" ∨ t0 = "quit") :
    RunString a command = ((true, none), []) := by
  unfold RunString
  rw [h1]
  rcases h2 with rfl | rfl
  · rfl
  · rfl

/-- C6 witness: `runLine "exit"` on a shell with an empty registry. -/
theorem C6_witness :
    (mkShell []).Splitter (trimGo "exit") = .ok ("exit" :: []) ∧
      RunString (mkShell []) "exit" = ((true, none), []) := by
  refine ⟨rfl, ?_⟩
  exact C6_theorem (mkShell []) "exit" "exit" [] rfl (Or.inl rfl)

/-!  ## Claim C8 — the untyped-argument scanner  -/

/-- C8: the claim's universal part states a quoted span is always treated
as atomic.  The in-quotes flag is toggled by every quote character with no
escape processing, so in `a="\" b"` the escaped quote closes the span
early: the interior space is taken as an argument boundary, and the
trailing `b"` is (wrongly) reported as the last untyped argument, where the
atomic reading has no untyped argument at all. -/
theorem C8_counterexample :
    splitPreservingQuotes escQuoteArgStr = ["a=\"\\\"", "b\""] ∧
      UtilFindUntypedArgInArgStr escQuoteArgStr = "b\"" ∧
      UtilFindUntypedArgInArgStr escQuoteArgStr ≠ "" := by
  refine ⟨rfl, rfl, ?_⟩
  decide

/-- C8 (amended): `UtilFindUntypedArgInArgStr "abc=def ghi"` returns
`"ghi"`, `UtilFindUntypedArgInArgStr "abc=def ghi="` returns the empty
string, and on the source's own documented example — a quoted value
containing `=` characters and a space, whose quote characters pair up
evenly — the quoted span is not mistaken for an argument boundary and the
result is empty.  (A quoted value containing a backslash-escaped quote can
still be split, as the counterexample shows.) -/
theorem C8_theorem :
    UtilFindUntypedArgInArgStr "abc=def ghi" = "ghi" ∧
      UtilFindUntypedArgInArgStr "abc=def ghi=" = "" ∧
      UtilFindUntypedArgInArgStr jsonArgStr = "" ∧
      splitPreservingQuotes jsonArgStr =
        ["abc=def", "ghi=d",
         "ghi:json=" ++ String.mk [Char.ofNat 39] ++
           "\x7b\\\"ahshsh\\\":\\\"ahs=293d\\\"==w=1 fhfhf\x7d" ++ String.mk [Char.ofNat 39]] := by
  refine ⟨rfl, rfl, rfl, rfl⟩

/-!  ## Claim C4 — compound lines are fail-fast  -/

/-- The events produced by running a list of segments that all continue. -/
def segTrace (a : ShellCli) (pre : List String) : List Ev :=
  (pre.map (fun p => Ev.seg p :: (RunString a p).2)).flatten

theorem stopCond_of_ne {r : Bool × Option String} (h : r ≠ (false, none)) :
    (r.2.isSome || r.1) = true := by
  rcases r with ⟨b, e⟩
  cases b
  · cases e
    · exact absurd rfl h
    · rfl
  · simp

theorem executeCommandsLoop_filter (a : ShellCli) (l : List String) :
    ExecuteCommandsLoop a l = ExecuteCommandsLoop a (l.filter (fun s => s != "")) := by
  induction l with
  | nil => rfl
  | cons cseg rest ih =>
    by_cases h : cseg = ""
    · subst h
      simpa [ExecuteCommandsLoop] using ih
    · have hb : (cseg != "") = true := by simpa using h
      simp only [List.filter_cons, hb, if_pos]
      rw [ExecuteCommandsLoop, ExecuteCommandsLoop, if_neg h, if_neg h]
      rcases hrs : RunString a cseg with ⟨r, t⟩
      dsimp only
      by_cases hstop : (r.2.isSome || r.1) = true
      · rw [if_pos hstop, if_pos hstop]
      · rw [if_neg hstop, if_neg hstop, ih]

theorem executeCommandsLoop_fail_fast (a : ShellCli) (s : String) (post : List String)
    (hs : s ≠ "") (hstop : ((RunString a s).1.2.isSome || (RunString a s).1.1) = true) :
    ∀ pre : List String,
      (∀ p ∈ pre, p ≠ "" ∧ (RunString a p).1 = (false, none)) →
      ExecuteCommandsLoop a (pre ++ s :: post) =
        ((RunString a s).1, segTrace a pre ++ (Ev.seg s :: (RunString a s).2)) := by
  intro pre
  induction pre with
  | nil =>
    intro _
    rw [List.nil_append, ExecuteCommandsLoop, if_neg hs]
    rcases hrs : RunString a s with ⟨r, t⟩
    rw [hrs] at hstop
    dsimp only at hstop ⊢
    rw [if_pos hstop]
    simp [segTrace]
  | cons p pre ih =>
    intro hpre
    obtain ⟨hpne, hpok⟩ := hpre p (List.mem_cons_self p pre)
    rw [List.cons_append, ExecuteCommandsLoop, if_neg hpne]
    rcases hrs : RunString a p with ⟨r, t⟩
    have hr : r = (false, none) := by rw [hrs] at hpok; exact hpok
    subst hr
    dsimp only
    rw [if_neg (by simp)]
    rw [ih (fun q hq => hpre q (List.mem_cons_of_mem p hq))]
    simp [segTrace, hrs]

/-- C4: `ExecuteCommands` splits the raw line on literal `;`, skips empty
segments, and runs the remaining segments through `RunString` in order;
the first segment returning an error or the exit signal produces the
overall result, and the event trace shows that no later segment is run
(fail-fast). -/
theorem C4_theorem (a : ShellCli) (cmd : String) (pre post : List String) (s : String)
    (hsegs : (goSplitChar ';' cmd.data []).filter (fun c => c != "") = pre ++ s :: post)
    (hpre : ∀ p ∈ pre, (RunString a p).1 = (false, none))
    (hs : (RunString a s).1 ≠ (false, none)) :
    ExecuteCommands a cmd =
      ((RunString a s).1, segTrace a pre ++ (Ev.seg s :: (RunString a s).2)) := by
  have hmem : ∀ q ∈ pre ++ s :: post, q ≠ "" := by
    intro q hq
    have : q ∈ (goSplitChar ';' cmd.data []).filter (fun c => c != "") := by
      rw [hsegs]; exact hq
    have := List.of_mem_filter this
    simpa using this
  have hsne : s ≠ "" :=
    hmem s (List.mem_append_right pre (List.mem_cons_self s post))
  rw [ExecuteCommands, executeCommandsLoop_filter, hsegs]
  exact executeCommandsLoop_fail_fast a s post hsne (stopCond_of_ne hs) pre
    (fun p hp => ⟨hmem p (List.mem_append_left _ hp), hpre p hp⟩)

/-- C4 witness: `"bad; good"` with `bad` unknown — the result is the
unknown-command error and the trace shows only the `bad` segment was run
(one `RunString` invocation, one failed registry lookup), nothing for
`good`. -/
theorem C4_witness :
    ExecuteCommands shellHP "bad; good" =
      ((false, some "unknown command: bad"), [Ev.seg "bad", Ev.lookup "bad"]) := by
  have h := C4_theorem shellHP "bad; good" [] [" good"] "bad" (by rfl)
    (by intro p hp; cases hp) (by decide)
  rw [h]
  rfl

/-!  ## Claim C5 — completion fallback on an unknown command name  -/

/-- C5: when the line is not all spaces, has no `;`, tokenizes into a
non-empty first token that is not an exit token, and that token does not
resolve in the registry, the completion handler falls back to listing the
registered command names having the lowercased line as a prefix; in
non-debug mode that listing is the only output, in debug mode the
resolution error is additionally surfaced and the listing still happens. -/
theorem C5_theorem (a : ShellCli) (line : String) (t0 : String) (rest : List String)
    (h1 : (line.data.filter (fun c => c != ' ')).length ≠ 0)
    (h2 : containsCharGo line ';' = false)
    (h3 : a.Splitter (trimGo line) = .ok (t0 :: rest))
    (h4 : t0 ≠ "") (h5 : t0 ≠ "exit") (h6 : t0 ≠ "quit")
    (h7 : List.lookup (if a.CaseInsensitive then toLowerGo t0 else t0) a.Commands = none) :
    CompletionHandler a line =
      ((a.Commands.map Prod.fst).filter (fun name => hasPrefixGo name (toLowerGo line)),
       if a.DebugCompletions then ["error parsing command: " ++ ("unknown command: " ++ t0)] else []) := by
  unfold CompletionHandler
  rw [if_neg h1, if_neg (by simp [h2]), h3]
  dsimp only
  rw [if_neg h4, if_neg (by simp [h5, h6])]
  unfold ParseOutCommand
  dsimp only
  rw [h7]

/-- C5 witness: completion on `"pi"` with `help` and `ping` registered, in
non-debug mode, yields exactly `["ping"]` and no debug output. -/
theorem C5_witness : CompletionHandler shellHP "pi" = (["ping"], []) := by
  have h := C5_theorem shellHP "pi" "pi" [] (by decide) (by decide) rfl
    (by decide) (by decide) (by decide) rfl
  rw [h]
  rfl

/-!  ## Claim C10 — case-insensitive lookup never reaches capitalized names  -/

/-- Does the string contain a basic latin capital letter? -/
def hasUpperChar (s : String) : Bool :=
  s.data.any (fun ch => 65 ≤ ch.toNat && ch.toNat ≤ 90)

theorem charToLowerGo_toNat (c : Char) :
    (charToLowerGo c).toNat =
      if 65 ≤ c.toNat ∧ c.toNat ≤ 90 then c.toNat + 32 else c.toNat := by
  unfold charToLowerGo
  split
  · rfl
  · rfl

theorem toLowerGo_hasUpperChar (s : String) : hasUpperChar (toLowerGo s) = false := by
  unfold hasUpperChar toLowerGo
  rw [show (String.mk (s.data.map charToLowerGo)).data = s.data.map charToLowerGo from rfl,
    List.any_map]
  simp only [List.any_eq_false, Function.comp]
  intro c _
  simp only [Bool.and_eq_true, decide_eq_true_eq, not_and]
  rw [charToLowerGo_toNat]
  split <;> omega

theorem toLowerGo_ne_of_hasUpperChar (w name : String) (h : hasUpperChar name = true) :
    toLowerGo w ≠ name := by
  intro heq
  rw [← heq] at h
  rw [toLowerGo_hasUpperChar w] at h
  exact Bool.false_ne_true h

theorem lookup_filter_ne {α : Type} (k name : String) (hk : k ≠ name)
    (l : List (String × α)) :
    List.lookup k (l.filter (fun p => p.1 != name)) = List.lookup k l := by
  induction l with
  | nil => rfl
  | cons p l ih =>
    rcases p with ⟨k1, v1⟩
    by_cases hp : k1 = name
    · subst hp
      have hkk : (k == k1) = false := by simp [hk]
      rw [List.filter_cons]
      simp only [bne_self_eq_false, Bool.false_eq_true, if_neg, ite_false]
      rw [List.lookup_cons, hkk, ih]
    · have hb : (k1 != name) = true := by simp [hp]
      rw [List.filter_cons, if_pos (by rw [hb])]
      rw [List.lookup_cons, List.lookup_cons]
      cases hkk : (k == k1)
      · rw [ih]
      · rfl

theorem lookup_eq_none_of_all_ne {α : Type} (k : String) (l : List (String × α))
    (h : ∀ p ∈ l, p.1 ≠ k) : List.lookup k l = none := by
  induction l with
  | nil => rfl
  | cons p l ih =>
    rcases p with ⟨k1, v1⟩
    have h1 : k1 ≠ k := h (k1, v1) (List.mem_cons_self _ _)
    have hkk : (k == k1) = false := by
      simp only [beq_eq_false_iff_ne, ne_eq]
      exact fun he => h1 he.symm
    rw [List.lookup_cons, hkk]
    exact ih (fun p hp => h p (List.mem_cons_of_mem _ hp))

/-- C10: with the case-insensitivity flag enabled, `ParseOutCommand` lowers
the looked-up name while `AddCommand` stores names as registered, so a
binding whose name contains a capital letter is dead: resolution of any
input behaves exactly as if that binding were absent, and when every
registered name contains a capital letter, every lookup — including the
exact registered spelling — fails with the unknown-command error. -/
theorem C10_theorem (a : ShellCli) (name : String) (w : String) (rest : List String)
    (hci : a.CaseInsensitive = true)
    (hup : hasUpperChar name = true) :
    (ParseOutCommand a (w :: rest) =
      ParseOutCommand
        { a with Commands := a.Commands.filter (fun p => p.1 != name) } (w :: rest))
    ∧ ((∀ p ∈ a.Commands, hasUpperChar p.1 = true) →
        ParseOutCommand a (w :: rest) = .error ("unknown command: " ++ w)) := by
  have ht : (if true = true then toLowerGo w else w) = toLowerGo w := rfl
  constructor
  · unfold ParseOutCommand
    rw [hci]
    dsimp only
    rw [ht, lookup_filter_ne (toLowerGo w) name (toLowerGo_ne_of_hasUpperChar w name hup)]
  · intro hall
    unfold ParseOutCommand
    rw [hci]
    dsimp only
    rw [ht, lookup_eq_none_of_all_ne (toLowerGo w) a.Commands
      (fun p hp => fun he => toLowerGo_ne_of_hasUpperChar w p.1 (hall p hp) he.symm)]

/-- C10 witness: the shell registering only `Foo` under the
case-insensitivity flag cannot resolve `Foo` even when spelled exactly as
registered. -/
theorem C10_witness :
    ParseOutCommand shellFoo ["Foo"] = .error "unknown command: Foo" := by
  have h := (C10_theorem shellFoo "Foo" "Foo" [] rfl (by decide)).2 (by
    intro p hp
    rcases List.mem_cons.mp hp with heq | hmem
    · rw [heq]
      decide
    · cases hmem)
  rw [h]
  rfl

/-!  ## Claim C1 — positional tokens are assigned by raw token index  -/

/-- Go-map update sequence: apply a list of key/value writes in order. -/
def mapSetFold (m : List (String × String)) (us : List (String × String)) :
    List (String × String) :=
  us.foldl (fun acc kv => mapSet acc kv.1 kv.2) m

/-- The token splits into one or two fields — the shapes
`CreateArgMapFromArgs` accepts. -/
def SplitsOneOrTwo (a : ShellCli) (s : String) : Prop :=
  ∃ fs, a.ArgSplitter s = .ok fs ∧ (fs.length = 1 ∨ fs.length = 2)

/-- The key/value writes performed by the argument-map loop, read off the
tokens enumerated with their raw indices starting at `i`: a bare token at
raw index `j` writes the `j`-th declared argument (if it exists), a
`key=value` token writes its explicit key. -/
def argUpdatesFrom (a : ShellCli) (cmdData : Command) (i : Nat) (args : List String) :
    List (String × String) :=
  (args.enumFrom i).filterMap (fun p =>
    match a.ArgSplitter p.2 with
    | .ok [v] =>
      if cmdData.Args.length ≤ p.1 then none
      else some ((cmdData.Args.getD p.1 ("", "", "")).1, v)
    | .ok [k, v] => some (k, v)
    | _ => none)

/-- The warnings of the argument-map loop: one per bare token whose raw
index is beyond the declared arguments. -/
def argWarnsFrom (a : ShellCli) (cmdData : Command) (i : Nat) (args : List String) :
    List String :=
  (args.enumFrom i).filterMap (fun p =>
    match a.ArgSplitter p.2 with
    | .ok [v] => if cmdData.Args.length ≤ p.1 then some v else none
    | _ => none)

theorem createArgLoop_characterization (a : ShellCli) (cmdData : Command) :
    ∀ (args : List String) (i : Nat) (m : List (String × String)) (w : List String),
      (∀ s ∈ args, SplitsOneOrTwo a s) →
      createArgLoop a cmdData i args m w =
        .ok (mapSetFold m (argUpdatesFrom a cmdData i args),
             w ++ argWarnsFrom a cmdData i args) := by
  intro args
  induction args with
  | nil =>
    intro i m w _
    simp [createArgLoop, argUpdatesFrom, argWarnsFrom, mapSetFold]
  | cons arg rest ih =>
    intro i m w h
    obtain ⟨fs, hsplit, hlen⟩ := h arg (List.mem_cons_self _ _)
    have hrest : ∀ s ∈ rest, SplitsOneOrTwo a s :=
      fun s hs => h s (List.mem_cons_of_mem _ hs)
    simp only [createArgLoop, argUpdatesFrom, argWarnsFrom, List.enumFrom_cons,
      List.filterMap_cons]
    rw [hsplit]
    rcases hlen with h1 | h2
    · obtain ⟨v, rfl⟩ : ∃ v, fs = [v] := by
        match fs, h1 with
        | [v], _ => exact ⟨v, rfl⟩
      dsimp only
      by_cases hle : cmdData.Args.length ≤ i
      · simp only [if_pos hle]
        rw [ih (i + 1) m (w ++ [v]) hrest]
        rw [argUpdatesFrom, argWarnsFrom, List.append_assoc]
        rfl
      · simp only [if_neg hle]
        rw [ih (i + 1) (mapSet m (cmdData.Args.getD i ("", "", "")).1 v) w hrest]
        rw [argUpdatesFrom, argWarnsFrom]
        rfl
    · obtain ⟨k, v, rfl⟩ : ∃ k v, fs = [k, v] := by
        match fs, h2 with
        | [k, v], _ => exact ⟨k, v, rfl⟩
      dsimp only
      rw [ih (i + 1) (mapSet m k v) w hrest]
      rw [argUpdatesFrom, argWarnsFrom]
      rfl

/-- C1 (amended): when every token splits into one or two fields, the
resulting map is exactly the in-order application of the writes read off
the raw-indexed token list: positional assignment applies only to bare
tokens, and a bare token at raw index `i` is written to the `i`-th
declared argument spec — named `key=value` tokens do count toward the
position — with bare tokens beyond the declared specs warned about and
dropped. -/
theorem C1_theorem (a : ShellCli) (cmdData : Command) (args : List String)
    (h : ∀ s ∈ args, SplitsOneOrTwo a s) :
    CreateArgMapFromArgs a cmdData args =
      .ok (mapSetFold [] (argUpdatesFrom a cmdData 0 args),
           argWarnsFrom a cmdData 0 args) := by
  rw [CreateArgMapFromArgs, createArgLoop_characterization a cmdData args 0 [] [] h,
    List.nil_append]

/-- C1 counterexample: for declared args `[x, y]` and tokens
`["y=1", "2"]`, the bare token `"2"` is assigned to `y` (the declared
argument at raw token index 1, since the named token counts toward the
position) and `x` stays unbound — the claim says `"2"` goes to `x`. -/
theorem C1_counterexample :
    (CreateArgMapFromArgs (mkShell []) cmdXY ["y=1", "2"]).map
      (fun r => (List.lookup "x" r.1, List.lookup "y" r.1)) = .ok (none, some "2") := by
  rfl

/-- C1 witness: the amended characterization evaluated on the
`["y=1", "2"]` scenario. -/
theorem C1_witness :
    (∀ s ∈ ["y=1", "2"], SplitsOneOrTwo (mkShell []) s) ∧
      CreateArgMapFromArgs (mkShell []) cmdXY ["y=1", "2"] = .ok ([("y", "2")], []) := by
  have hyp : ∀ s ∈ ["y=1", "2"], SplitsOneOrTwo (mkShell []) s := by
    intro s hs
    simp only [List.mem_cons, List.not_mem_nil, or_false] at hs
    rcases hs with rfl | rfl
    · exact ⟨["y", "1"], rfl, Or.inr rfl⟩
    · exact ⟨["2"], rfl, Or.inl rfl⟩
  refine ⟨hyp, ?_⟩
  rw [C1_theorem (mkShell []) cmdXY ["y=1", "2"] hyp]
  rfl

/-!  ## Claim C7 — malformed tokens abort the argument map  -/

theorem createArgLoop_invalid (a : ShellCli) (cmdData : Command) (tok : String)
    (rest fields : List String)
    (hsplit : a.ArgSplitter tok = .ok fields)
    (hne1 : fields.length ≠ 1) (hne2 : fields.length ≠ 2) :
    ∀ (pre : List String) (i : Nat) (m : List (String × String)) (w : List String),
      (∀ s ∈ pre, SplitsOneOrTwo a s) →
      createArgLoop a cmdData i (pre ++ tok :: rest) m w =
        .error ("invalid argument: " ++ tok) := by
  intro pre
  induction pre with
  | nil =>
    intro i m w _
    rw [List.nil_append]
    simp only [createArgLoop]
    rw [hsplit]
    match fields, hne1, hne2 with
    | [], _, _ => rfl
    | _ :: _ :: _ :: _, _, _ => rfl
  | cons p pre ih =>
    intro i m w h
    obtain ⟨fs, hs, hl⟩ := h p (List.mem_cons_self _ _)
    have hpre : ∀ s ∈ pre, SplitsOneOrTwo a s :=
      fun s hmem => h s (List.mem_cons_of_mem _ hmem)
    rw [List.cons_append]
    simp only [createArgLoop]
    rw [hs]
    rcases hl with h1 | h2
    · obtain ⟨v, rfl⟩ : ∃ v, fs = [v] := by
        match fs, h1 with
        | [v], _ => exact ⟨v, rfl⟩
      dsimp only
      by_cases hle : cmdData.Args.length ≤ i
      · rw [if_pos hle, ih (i + 1) m (w ++ [v]) hpre]
      · rw [if_neg hle, ih (i + 1) (mapSet m (cmdData.Args.getD i ("", "", "")).1 v) w hpre]
    · obtain ⟨k, v, rfl⟩ : ∃ k v, fs = [k, v] := by
        match fs, h2 with
        | [k, v], _ => exact ⟨k, v, rfl⟩
      dsimp only
      rw [ih (i + 1) (mapSet m k v) w hpre]

theorem createArgLoop_aborts (a : ShellCli) (cmdData : Command) :
    ∀ (args : List String) (i : Nat) (m : List (String × String)) (w : List String),
      (∃ s ∈ args, ¬ SplitsOneOrTwo a s) →
      ∃ msg, createArgLoop a cmdData i args m w = .error msg := by
  intro args
  induction args with
  | nil =>
    rintro i m w ⟨s, hs, -⟩
    cases hs
  | cons arg rest ih =>
    rintro i m w ⟨s, hs, hbad⟩
    rcases List.mem_cons.mp hs with rfl | hmem
    · cases hsp : a.ArgSplitter s with
      | error e =>
        exact ⟨"error splitting argument: " ++ e, by simp only [createArgLoop]; rw [hsp]⟩
      | ok fs =>
        match fs with
        | [v] => exact absurd ⟨[v], hsp, Or.inl rfl⟩ hbad
        | [k, v] => exact absurd ⟨[k, v], hsp, Or.inr rfl⟩ hbad
        | [] =>
          exact ⟨"invalid argument: " ++ s, by simp only [createArgLoop]; rw [hsp]⟩
        | x :: y :: z :: t =>
          exact ⟨"invalid argument: " ++ s, by simp only [createArgLoop]; rw [hsp]⟩
    · have hex : ∃ s ∈ rest, ¬ SplitsOneOrTwo a s := ⟨s, hmem, hbad⟩
      cases hsp : a.ArgSplitter arg with
      | error e =>
        exact ⟨"error splitting argument: " ++ e, by simp only [createArgLoop]; rw [hsp]⟩
      | ok fs =>
        match fs with
        | [v] =>
          by_cases hle : cmdData.Args.length ≤ i
          · obtain ⟨msg, hmsg⟩ := ih (i + 1) m (w ++ [v]) hex
            exact ⟨msg, by simp only [createArgLoop]; rw [hsp]; dsimp only; rw [if_pos hle, hmsg]⟩
          · obtain ⟨msg, hmsg⟩ :=
              ih (i + 1) (mapSet m (cmdData.Args.getD i ("", "", "")).1 v) w hex
            exact ⟨msg, by simp only [createArgLoop]; rw [hsp]; dsimp only; rw [if_neg hle, hmsg]⟩
        | [k, v] =>
          obtain ⟨msg, hmsg⟩ := ih (i + 1) (mapSet m k v) w hex
          exact ⟨msg, by simp only [createArgLoop]; rw [hsp]; dsimp only; rw [hmsg]⟩
        | [] => exact ⟨"invalid argument: " ++ arg, by simp only [createArgLoop]; rw [hsp]⟩
        | x :: y :: z :: t =>
          exact ⟨"invalid argument: " ++ arg, by simp only [createArgLoop]; rw [hsp]⟩

/-- C7: a token splitting into a field count other than one or two —
given the earlier tokens split acceptably — fails the whole call with
exactly the error `invalid argument: <token>`; and, in general, any token
whose split is not an acceptable one-or-two-field result aborts the whole
call with an error, so no partial argument map is ever returned. -/
theorem C7_theorem (a : ShellCli) (cmdData : Command) :
    (∀ (pre : List String) (tok : String) (rest fields : List String),
      (∀ s ∈ pre, SplitsOneOrTwo a s) →
      a.ArgSplitter tok = .ok fields →
      fields.length ≠ 1 → fields.length ≠ 2 →
      CreateArgMapFromArgs a cmdData (pre ++ tok :: rest) =
        .error ("invalid argument: " ++ tok))
    ∧ (∀ args : List String, (∃ s ∈ args, ¬ SplitsOneOrTwo a s) →
        ∃ msg, CreateArgMapFromArgs a cmdData args = .error msg) := by
  constructor
  · intro pre tok rest fields hpre hsplit hne1 hne2
    exact createArgLoop_invalid a cmdData tok rest fields hsplit hne1 hne2 pre 0 [] [] hpre
  · intro args hex
    exact createArgLoop_aborts a cmdData args 0 [] [] hex

/-- C7 witness: the token `a=b=c` splits into three fields under the
modelled argument splitter and fails the call with
`invalid argument: a=b=c`. -/
theorem C7_witness :
    (mkShell []).ArgSplitter "a=b=c" = .ok ["a", "b", "c"] ∧
      CreateArgMapFromArgs (mkShell []) cmdX ["a=b=c"] =
        .error "invalid argument: a=b=c" := by
  refine ⟨rfl, ?_⟩
  have h := (C7_theorem (mkShell []) cmdX).1 [] "a=b=c" [] ["a", "b", "c"]
    (by intro s hs; cases hs) rfl (by decide) (by decide)
  rw [List.nil_append] at h
  rw [h]
  rfl

/-!  ## Claim C9 — explicit keys are never validated against the specs  -/

theorem createArgLoop_named (a : ShellCli) (cmdData : Command)
    (args : List String) (pairs : List (String × String))
    (h : List.Forall₂ (fun arg kv => a.ArgSplitter arg = .ok [kv.1, kv.2]) args pairs) :
    ∀ (i : Nat) (m : List (String × String)) (w : List String),
      createArgLoop a cmdData i args m w = .ok (mapSetFold m pairs, w) := by
  induction h with
  | nil => intro i m w; rfl
  | @cons arg kv args2 pairs2 harg htail ih =>
    intro i m w
    simp only [createArgLoop]
    rw [harg]
    exact ih (i + 1) (mapSet m kv.1 kv.2) w

/-- C9: explicit `key=value` tokens are mapped by their key with no
validation against the declared argument specs: when every token splits
into exactly two fields, the call succeeds with precisely those key/value
writes applied in token order and no warning — for every command,
including one declaring no arguments at all, so a run handler may receive
keys absent from the declared specs. -/
theorem C9_theorem (a : ShellCli) (cmdData : Command) (args : List String)
    (pairs : List (String × String))
    (h : List.Forall₂ (fun arg kv => a.ArgSplitter arg = .ok [kv.1, kv.2]) args pairs) :
    CreateArgMapFromArgs a cmdData args = .ok (mapSetFold [] pairs, []) := by
  rw [CreateArgMapFromArgs]
  exact createArgLoop_named a cmdData args pairs h 0 [] []

/-- C9 witness: a command declaring no arguments still receives the
undeclared key `foo` bound to `bar`, with no error and no warning. -/
theorem C9_witness :
    cmdNone.Args = [] ∧
      CreateArgMapFromArgs (mkShell []) cmdNone ["foo=bar"] = .ok ([("foo", "bar")], []) ∧
      List.lookup "foo" [("foo", "bar")] = some "bar" := by
  refine ⟨rfl, ?_, rfl⟩
  have h := C9_theorem (mkShell []) cmdNone ["foo=bar"] [("foo", "bar")]
    (List.Forall₂.cons rfl List.Forall₂.nil)
  rw [h]
  rfl

end Shellcli

